import Mathlib

/-!
Verification of the workflow iteration engine of the Agentic-Workflow
repository. The definitions below are a shallow embedding of the
TypeScript sources, chiefly `src/server/src/services/workflow.ts`,
`src/server/src/utils/rateLimiter.ts` and the loop driver in
`src/App.tsx`. JavaScript strings are modelled as Lean strings (lists
of characters); JavaScript numbers holding integral values are
modelled as `Int`/`Nat`.
-/

namespace AWF

/-! ## Data model (src/server/src/types.ts) -/

/-- Embeds the `Artifact` interface: a named string payload. -/
structure Artifact where
  key : String
  value : String
deriving Repr, DecidableEq

/-- Embeds the `RunLogEntry` interface. -/
structure RunLogEntry where
  iteration : Int
  agent : String
  summary : String
deriving Repr, DecidableEq

/-- Embeds the `InternalState` interface (the mutable workspace). -/
structure InternalState where
  goal : String
  steps : List String
  initialPlan : Option (List String)
  artifacts : List Artifact
  notes : String
  progress : String
deriving Repr, DecidableEq

/-- Embeds the `WorkflowState` interface. `resultType` is optional in
the TypeScript type, hence `Option`. -/
structure WorkflowState where
  goal : String
  maxIterations : Int
  currentIteration : Int
  status : String
  runLog : List RunLogEntry
  state : InternalState
  finalResultMarkdown : String
  finalResultSummary : String
  resultType : Option String
deriving Repr, DecidableEq

/-! ## JavaScript string primitives

The RAG search uses `String.prototype.split` with the regexes `/\s+/`
and `/\n\s*\n/`, `trim`, and `toLowerCase`. They are modelled on
`List Char`. All definitions are structurally recursive so that the
kernel can evaluate them on concrete inputs. -/

/-- Character class `\s` of JavaScript regular expressions (also the
set trimmed by `String.prototype.trim`): ASCII whitespace, NBSP, BOM,
and the Unicode space separators. -/
def isJsSpace (c : Char) : Bool :=
  c == ' ' || c == '\t' || c == '\n' || c == '\r' ||
  c.val == 0x0b || c.val == 0x0c || c.val == 0xa0 || c.val == 0xfeff ||
  c.val == 0x1680 || (decide (0x2000 ≤ c.val) && decide (c.val ≤ 0x200a)) ||
  c.val == 0x2028 || c.val == 0x2029 || c.val == 0x202f || c.val == 0x205f || c.val == 0x3000

/-- Model of `String.prototype.toLowerCase` (ASCII letters; the engine
only ever compares case-folded keyword tokens). -/
def jsToLower (l : List Char) : List Char := l.map Char.toLower

/-- Model of `String.prototype.trim`. -/
def jsTrim (l : List Char) : List Char :=
  ((l.dropWhile isJsSpace).reverse.dropWhile isJsSpace).reverse

/-- Worker for `split(/\s+/)`. The flag is `true` while scanning
inside a whitespace run (the current field has already been emitted),
`false` while accumulating the current field (held reversed in the
second argument). JavaScript keeps leading and trailing empty
fields, which this reproduces. -/
def splitWsGo : Bool → List Char → List Char → List (List Char)
  | false, acc, [] => [acc.reverse]
  | false, acc, c :: cs =>
      if isJsSpace c then acc.reverse :: splitWsGo true [] cs
      else splitWsGo false (c :: acc) cs
  | true, _, [] => [[]]
  | true, _, c :: cs =>
      if isJsSpace c then splitWsGo true [] cs
      else splitWsGo false [c] cs

/-- Model of `str.split(/\s+/)`. -/
def splitWs (l : List Char) : List (List Char) := splitWsGo false [] l

/-- Characters of a whitespace run strictly before its first newline. -/
def beforeFirstNl (l : List Char) : List Char := l.takeWhile (fun c => c != '\n')

/-- Characters of a whitespace run strictly after its last newline. -/
def afterLastNl (l : List Char) : List Char := (l.reverse.takeWhile (fun c => c != '\n')).reverse

/-- Worker for `split(/\n\s*\n/)`. A leftmost match of that regex is,
inside a maximal whitespace run holding at least two newlines, the
segment from the run's first newline to its last newline (the greedy
`\s*` backtracks to the last newline of the run); whitespace of the
run before the first newline stays with the preceding field and
whitespace after the last newline starts the following field. The
first argument accumulates the current field, the second the pending
whitespace run. -/
def splitBlankGo : List Char → List Char → List Char → List (List Char)
  | acc, pend, [] =>
      if 2 ≤ pend.count '\n' then [acc ++ beforeFirstNl pend, afterLastNl pend]
      else [acc ++ pend]
  | acc, pend, c :: cs =>
      if isJsSpace c then splitBlankGo acc (pend ++ [c]) cs
      else if 2 ≤ pend.count '\n' then
        (acc ++ beforeFirstNl pend) :: splitBlankGo (afterLastNl pend ++ [c]) [] cs
      else splitBlankGo (acc ++ pend ++ [c]) [] cs

/-- Model of `content.split(/\n\s*\n/)` (split on blank-line boundaries). -/
def splitBlank (l : List Char) : List (List Char) := splitBlankGo [] [] l

/-- Model of `Array.prototype.join(sep)`. -/
def joinSep (sep : String) : List String → String
  | [] => ""
  | [x] => x
  | x :: y :: xs => x ++ sep ++ joinSep sep (y :: xs)

/-- First-occurrence deduplication with an explicit list of already
seen elements; `dedupFirst` models the element order of a JavaScript
`Set` built by insertion. -/
def dedupFirstAux {α : Type} [DecidableEq α] : List α → List α → List α
  | _, [] => []
  | seen, x :: xs =>
      if x ∈ seen then dedupFirstAux seen xs
      else x :: dedupFirstAux (x :: seen) xs

/-- Model of `[...new Set(l)]`: keeps the first occurrence of each element. -/
def dedupFirst {α : Type} [DecidableEq α] (l : List α) : List α := dedupFirstAux [] l

/-! ## RAG side-search (`_executeRAG` in src/server/src/services/workflow.ts) -/

/-- Fixed message returned when query or content is empty. -/
def ragEmptyMessage : String := "No query or content provided for search."

/-- Fixed message returned when the query has no keyword of length above two. -/
def ragGenericMessage : String := "Query is too generic. Please provide more specific keywords."

/-- Fixed message returned when no chunk scores above zero. -/
def ragNoResultMessage : String := "No relevant information found in the document for your query."

/-- Preamble put before the joined top chunks. -/
def ragPreamble : String := "Here are the most relevant snippets from the document:\n\n---\n\n"

/-- Separator between joined top chunks. -/
def ragSeparator : String := "\n\n---\n\n"

/-- Embeds the element shape `{ chunk, score }` built by `_executeRAG`. -/
structure Scored where
  chunk : String
  score : Nat
deriving Repr, DecidableEq

/-- Chunks of the knowledge document: `content.split(/\n\s*\n/)` kept
when the trimmed chunk is longer than 10 characters
(`.filter(p => p.trim().length > 10)`). -/
def ragChunks (content : String) : List String :=
  ((splitBlank content.data).map (fun l => String.mk l)).filter
    (fun p => 10 < (jsTrim p.data).length)

/-- Lowercase whitespace tokens of a chunk
(`chunk.toLowerCase().split(/\s+/)`); only membership in the resulting
`Set` is ever used. -/
def chunkTokens (chunk : String) : List String :=
  (splitWs (jsToLower chunk.data)).map (fun l => String.mk l)

/-- Query keywords: `new Set(query.toLowerCase().split(/\s+/).filter(w => w.length > 2))`,
in insertion order. -/
def queryWordsOf (query : String) : List String :=
  dedupFirst (((splitWs (jsToLower query.data)).map (fun l => String.mk l)).filter
    (fun w => 2 < w.data.length))

/-- Chunk score, as the source computes it: a fold over the query
words incrementing a counter for each word found among the chunk's
tokens. -/
def scoreFold (queryWords : List String) (chunk : String) : Nat :=
  queryWords.foldl (fun sc w => if (chunkTokens chunk).contains w then sc + 1 else sc) 0

/-- Insertion step of the descending stable sort:
`scoredChunks.sort((a, b) => b.score - a.score)` with JavaScript's
stable `Array.prototype.sort`. An element is placed after every
earlier element of strictly greater score and before every element of
smaller or equal score, which preserves the original order of ties. -/
def insertDesc (x : Scored) : List Scored → List Scored
  | [] => [x]
  | y :: ys => if y.score > x.score then y :: insertDesc x ys else x :: y :: ys

/-- Stable descending-by-score sort of the scored chunks. -/
def sortByScoreDesc : List Scored → List Scored
  | [] => []
  | x :: xs => insertDesc x (sortByScoreDesc xs)

/-- Embeds `_executeRAG` (src/server/src/services/workflow.ts, lines 356 to 387). -/
def executeRAG (query content : String) : String :=
  if query == "" || content == "" then ragEmptyMessage
  else
    let chunks := ragChunks content
    let queryWords := queryWordsOf query
    if queryWords.length == 0 then ragGenericMessage
    else
      let scoredChunks :=
        (chunks.map (fun chunk => Scored.mk chunk (scoreFold queryWords chunk))).filter
          (fun item => 0 < item.score)
      let topChunks := ((sortByScoreDesc scoredChunks).take 3).map Scored.chunk
      if topChunks.length == 0 then ragNoResultMessage
      else ragPreamble ++ joinSep ragSeparator topChunks

/-! ## Reference RAG algorithm, from the specification's words

Claim C2 describes a reference algorithm for the search. It is
written here independently of `executeRAG`, following the
specification's step list: scoring is "the number of query words
present in the chunk's token set" (a filtered count rather than a
fold), and the stable descending sort is specified extensionally as
"sorted by descending score with ties keeping original chunk order",
rendered as concatenating, for each distinct score in descending
order, the chunks of that score in original order. The low-level
split/trim/lowercase primitives are shared with the source embedding,
since the specification does not define them further. -/

/-- Number of query words present in the chunk's token set (the
specification's phrasing of the score). -/
def scoreCount (queryWords : List String) (chunk : String) : Nat :=
  (queryWords.filter (fun w => (chunkTokens chunk).contains w)).length

/-- Descending insertion for bare scores. -/
def insertNatDesc (x : Nat) : List Nat → List Nat
  | [] => [x]
  | y :: ys => if x > y then x :: y :: ys else y :: insertNatDesc x ys

/-- Descending sort of bare scores. -/
def natSortDesc : List Nat → List Nat
  | [] => []
  | x :: xs => insertNatDesc x (natSortDesc xs)

/-- Concatenation, for each listed score in order, of the elements of
that score in original order. -/
def gatherByScores (l : List Scored) : List Nat → List Scored
  | [] => []
  | s :: ss => l.filter (fun it => it.score = s) ++ gatherByScores l ss

/-- The specification's stable descending sort: every distinct score
in descending order; ties keep the original chunk order. -/
def stableSortByScoreDesc (l : List Scored) : List Scored :=
  gatherByScores l (natSortDesc (dedupFirst (l.map Scored.score)))

/-- Modelled from the spec: claim C2's reference RAG algorithm, as
stated. In particular, "chunks shorter than 10 characters after
trimming are discarded" keeps a chunk whose trimmed length is exactly
10. -/
def ragReferenceSearch (query content : String) : String :=
  if query == "" || content == "" then ragEmptyMessage
  else
    let chunks :=
      ((splitBlank content.data).map (fun l => String.mk l)).filter
        (fun p => 10 ≤ (jsTrim p.data).length)
    let queryWords := queryWordsOf query
    if queryWords.isEmpty then ragGenericMessage
    else
      let positive :=
        (chunks.map (fun chunk => Scored.mk chunk (scoreCount queryWords chunk))).filter
          (fun item => item.score ≠ 0)
      let topChunks := ((stableSortByScoreDesc positive).take 3).map Scored.chunk
      if topChunks.isEmpty then ragNoResultMessage
      else ragPreamble ++ joinSep ragSeparator topChunks

/-- Modelled from the spec: claim C2's reference algorithm amended at
the single point the code contradicts it — a chunk is kept only when
its trimmed length exceeds 10, so a chunk of trimmed length exactly
10 is discarded. Everything else is as in `ragReferenceSearch`. -/
def ragReferenceSearchAmended (query content : String) : String :=
  if query == "" || content == "" then ragEmptyMessage
  else
    let chunks :=
      ((splitBlank content.data).map (fun l => String.mk l)).filter
        (fun p => 10 < (jsTrim p.data).length)
    let queryWords := queryWordsOf query
    if queryWords.isEmpty then ragGenericMessage
    else
      let positive :=
        (chunks.map (fun chunk => Scored.mk chunk (scoreCount queryWords chunk))).filter
          (fun item => item.score ≠ 0)
      let topChunks := ((stableSortByScoreDesc positive).take 3).map Scored.chunk
      if topChunks.isEmpty then ragNoResultMessage
      else ragPreamble ++ joinSep ragSeparator topChunks

/-! ## Iteration controller (`runWorkflowIteration`)

The provider adapters perform network calls; they are modelled as an
oracle giving, per adapter, either a thrown error or the parsed reply
state. The controller's deterministic parts — the provider switch of
lines 405 to 429 and the RAG post-processing of lines 431 to 445 —
are embedded directly. -/

/-- Truthiness of an optional JavaScript string (`undefined` and the
empty string are falsy). -/
def optTruthy : Option String → Bool
  | none => false
  | some s => !(s == "")

/-- Fixed notes written when a search was requested but no knowledge
document was supplied (line 441). -/
def ragNoDocMessage : String :=
  "You requested a search, but no knowledge document has been provided by the user. Please proceed with the task using your existing knowledge."

/-- Notes written after a successful search (line 439), naming the query. -/
def ragDoneNotes (query : String) : String :=
  "I have completed the requested search for \"" ++ query ++
  "\". The results are now available in the \x27rag_results\x27 artifact. Please review them and continue with your task."

/-- Embeds the RAG post-processing of `runWorkflowIteration` (lines
431 to 445): find a `rag_query` artifact; if present remove every
`rag_query` artifact, then either run the search and append a
`rag_results` artifact (when `ragContent` is truthy) or overwrite the
notes with the fixed no-document message. -/
def postProcessRag (newState : WorkflowState) (ragContent : Option String) : WorkflowState :=
  match newState.state.artifacts.find? (fun a => a.key == "rag_query") with
  | none => newState
  | some ragQueryArtifact =>
      let filtered := newState.state.artifacts.filter (fun a => a.key != "rag_query")
      if optTruthy ragContent then
        let query := ragQueryArtifact.value
        let ragResults := executeRAG query (ragContent.getD "")
        { newState with state := { newState.state with
            artifacts := filtered ++ [⟨"rag_results", ragResults⟩],
            notes := ragDoneNotes query } }
      else
        { newState with state := { newState.state with
            artifacts := filtered,
            notes := ragNoDocMessage } }

/-- The adapter implementations reachable from the provider switch.
`groq`, `samba` and `cerberus` share the OpenAI-compatible adapter,
and `_runOpenRouterWorkflow` delegates to it as well. -/
inductive AdapterKind where
  | google
  | ollama
  | openai
  | claude
  | openrouter
deriving Repr, DecidableEq

/-- The provider keys the switch of `runWorkflowIteration` handles. -/
def knownProviderKeys : List String :=
  ["google", "ollama", "openai", "claude", "openrouter", "groq", "samba", "cerberus"]

/-- Embeds the provider switch (lines 405 to 429): which adapter a
provider key selects, `none` for the default branch that throws. -/
def selectAdapter (provider : String) : Option AdapterKind :=
  if provider == "google" then some .google
  else if provider == "ollama" then some .ollama
  else if provider == "openai" then some .openai
  else if provider == "claude" then some .claude
  else if provider == "openrouter" then some .openrouter
  else if provider == "groq" then some .openai
  else if provider == "samba" then some .openai
  else if provider == "cerberus" then some .openai
  else none

/-- Embeds `runWorkflowIteration`. The oracle `adapterReply` stands
for the network round trip of each adapter. The result records the
list of adapter invocations made (so that "no adapter was invoked"
is expressible) together with the returned state or thrown error. -/
def runWorkflowIteration (provider : String)
    (adapterReply : AdapterKind → Except String WorkflowState)
    (ragContent : Option String) : List AdapterKind × Except String WorkflowState :=
  match selectAdapter provider with
  | none => ([], .error ("Unsupported provider: " ++ provider))
  | some k =>
      match adapterReply k with
      | .error e => ([k], .error e)
      | .ok newState => ([k], .ok (postProcessRag newState ragContent))

/-! ## Connection test (`testProviderConnection`, lines 455 to 499)

Every branch makes at most one `fetch`; the single response the
environment would give is passed as an oracle. The outbound requests
actually issued are returned so that "no outbound call" is
expressible. -/

/-- Embeds the `ProviderSettings` interface. -/
structure ProviderSettings where
  apiKey : Option String
  model : String
  baseURL : String
deriving Repr, DecidableEq

/-- The parts of a `fetch` response the connection test inspects. -/
structure FetchResponse where
  status : Nat
  statusText : String
  modelsIsArray : Bool
deriving Repr, DecidableEq

/-- Response success flag (`response.ok`): status in the 2xx range. -/
def FetchResponse.isOk (r : FetchResponse) : Bool :=
  decide (200 ≤ r.status) && decide (r.status ≤ 299)

/-- An outbound request issued by the connection test. `maxTokens` is
set only by the message-API probe body. -/
structure FetchCall where
  url : String
  method : String
  maxTokens : Option Nat
deriving Repr, DecidableEq

/-- Embeds `testProviderConnection`. `envGoogleKey` is
`process.env.GOOGLE_API_KEY` captured at module load. -/
def testProviderConnection (provider : String) (envGoogleKey : Option String)
    (settings : ProviderSettings) (response : FetchResponse) :
    List FetchCall × Except String Bool :=
  if provider == "google" then
    if optTruthy envGoogleKey then ([], .ok true)
    else ([], .error "Google API Key not available.")
  else if provider == "ollama" then
    let call : FetchCall := ⟨settings.baseURL ++ "/api/tags", "GET", none⟩
    if response.isOk then ([call], .ok response.modelsIsArray)
    else ([call], .error ("Ollama connection failed: " ++ response.statusText))
  else if provider == "openai" || provider == "openrouter" || provider == "groq" ||
      provider == "samba" || provider == "cerberus" then
    if !optTruthy settings.apiKey then ([], .error "API Key is missing.")
    else
      let call : FetchCall := ⟨settings.baseURL ++ "/models", "GET", none⟩
      if response.isOk then ([call], .ok true)
      else ([call], .error ("Connection failed: " ++ response.statusText))
  else if provider == "claude" then
    if !optTruthy settings.apiKey then ([], .error "API Key is missing.")
    else
      let call : FetchCall := ⟨settings.baseURL ++ "/messages", "POST", some 1⟩
      if response.status == 401 || response.status == 403 then
        ([call], .error ("Connection failed: " ++ response.statusText))
      else ([call], .ok true)
  else ([], .ok false)

/-! ## Rate limiter (src/server/src/utils/rateLimiter.ts)

Wall-clock time is modelled in milliseconds as `Nat`. `waitIfNeeded`
reads `Date.now()` on entry (`now`), sleeps for the computed wait
time, and reads `Date.now()` again on exit to record it;
`lateness ≥ 0` accounts for the timer firing no earlier than
requested and for the second clock read. The constructor evaluates
`Math.ceil((60 * 1000) / requestsPerMinute * 1.1)` in IEEE
double-precision arithmetic: the division and the multiplication each
round to nearest with ties to even, and `Math.ceil` on the result is
exact. The model below implements binary64 rounding of positive
rationals with an unbounded exponent; every value involved is far
from binary64 overflow and underflow, where the two coincide. -/

/-- Number of binary digits of a natural number (0 for 0); the first
argument is fuel, always called with fuel at least the number itself. -/
def bitLenAux : Nat → Nat → Nat
  | 0, _ => 0
  | fuel + 1, n => if n = 0 then 0 else bitLenAux fuel (n / 2) + 1

/-- Bit length of a natural number. -/
def bitLen (n : Nat) : Nat := bitLenAux n n

/-- Round the positive rational `a / b` to 53 significant bits, to
nearest with ties to even (IEEE binary64 with unbounded exponent).
The exponent `e` is the unique integer with `2 ^ e ≤ a / b < 2 ^ (e + 1)`,
found from the bit lengths of `a` and `b` and one comparison; the
value is then scaled into `[2 ^ 52, 2 ^ 53)` and rounded on the
half-way test `2 * (A % B)` against `B`. Returns numerator and
denominator of the rounded value, the denominator a power of two. -/
def jsRound64 (a b : Nat) : Nat × Nat :=
  if a == 0 || b == 0 then (0, 1)
  else
    let d : Int := (bitLen a : Int) - (bitLen b : Int)
    let ge : Bool :=
      if 0 ≤ d then decide (b * 2 ^ d.toNat ≤ a) else decide (b ≤ a * 2 ^ (-d).toNat)
    let e : Int := if ge then d else d - 1
    let s : Int := 52 - e
    let A := if 0 ≤ s then a * 2 ^ s.toNat else a
    let B := if 0 ≤ s then b else b * 2 ^ (-s).toNat
    let q := A / B
    let r := A % B
    let m :=
      if 2 * r < B then q
      else if B < 2 * r then q + 1
      else if q % 2 = 0 then q else q + 1
    if 0 ≤ s then (m, 2 ^ s.toNat) else (m * 2 ^ (-s).toNat, 1)

/-- Numerator of the IEEE binary64 value of the literal `1.1`, which
is `4953959590107546 / 2 ^ 52` (hex significand 0x1199999999999A). -/
def onePointOneNum : Nat := 4953959590107546

/-- 2 to the 52nd power, the denominator of the binary64 literal `1.1`. -/
def twoPow52 : Nat := 4503599627370496

/-- Embeds `Math.ceil((60 * 1000) / requestsPerMinute * 1.1)` in IEEE
double-precision arithmetic: `60000 / requestsPerMinute` rounds once,
the product with the double `1.1` rounds once more, and the ceiling
of the resulting positive rational is exact. For
`requestsPerMinute = 0` the source computes `Infinity`; the model
returns 0 there and no theorem uses that case. -/
def jsMinDelay (requestsPerMinute : Nat) : Nat :=
  if requestsPerMinute == 0 then 0
  else
    let q := jsRound64 60000 requestsPerMinute
    let p := jsRound64 (q.1 * onePointOneNum) (q.2 * twoPow52)
    (p.1 + p.2 - 1) / p.2

/-- Embeds the `RateLimiter` class state. -/
structure RateLimiter where
  lastCallTime : Nat
  minDelayMs : Nat
deriving Repr, DecidableEq

/-- Embeds the constructor (rateLimiter.ts line 28):
`minDelayMs = Math.ceil((60 * 1000) / requestsPerMinute * 1.1)`,
evaluated in double precision. -/
def RateLimiter.create (requestsPerMinute : Nat) : RateLimiter :=
  { lastCallTime := 0, minDelayMs := jsMinDelay requestsPerMinute }

/-- The wait `waitIfNeeded` performs when entered at time `now`. -/
def RateLimiter.waitTime (rl : RateLimiter) (now : Nat) : Nat :=
  if now - rl.lastCallTime < rl.minDelayMs then rl.minDelayMs - (now - rl.lastCallTime)
  else 0

/-- Embeds `waitIfNeeded`: sleep for the computed wait, then record
the exit clock reading as the last-call time. Returns the updated
limiter and the exit time. -/
def RateLimiter.waitIfNeeded (rl : RateLimiter) (now lateness : Nat) : RateLimiter × Nat :=
  let exitTime := now + rl.waitTime now + lateness
  ({ rl with lastCallTime := exitTime }, exitTime)

/-! ## Loop driver (`handleRunWorkflow` in src/App.tsx, lines 100 to 110)

The driver holds the state, calls the iteration controller once per
turn `i = 1, 2, ...` up to `maxIterations`, overwrites the reported
`currentIteration` with its own counter, and stops early on a
terminal status. The controller round trip is an oracle `f` from the
turn number and the held state to the reply. The trace of held
states after each executed turn is returned. -/

/-- Statuses on which the driver breaks out of its loop. -/
def isTerminalStatus (s : WorkflowState) : Bool :=
  s.status == "completed" || s.status == "needs_clarification"

/-- Embeds one driver assignment:
`currentState = { ...newState, currentIteration: i }`. -/
def driverStep (reply : WorkflowState) (i : Nat) : WorkflowState :=
  { reply with currentIteration := (i : Int) }

/-- Worker for the driver loop: `remaining` turns left, next turn
number `i`, currently held state `current`. -/
def driverRunAux (f : Nat → WorkflowState → WorkflowState) :
    Nat → Nat → WorkflowState → List WorkflowState
  | 0, _, _ => []
  | remaining + 1, i, current =>
      let next := driverStep (f i current) i
      if isTerminalStatus next then [next]
      else next :: driverRunAux f remaining (i + 1) next

/-- The trace of held states after each executed turn of
`handleRunWorkflow`'s loop. -/
def driverRun (f : Nat → WorkflowState → WorkflowState) (init : WorkflowState)
    (maxIterations : Nat) : List WorkflowState :=
  driverRunAux f maxIterations 1 init

/-! ## Prompt builder (`prepareStateForPrompt` and the per-adapter prompts)

The JSON value embedded in the rendered prompt text is modelled as a
small JSON syntax tree; `JSON.stringify` of the workflow state is the
straightforward translation `workflowStateToJson`, with optional
fields present only when defined, as in a parsed JavaScript object.
`prepareStateForPrompt` (lines 14 to 31) deep-copies the state,
truncates `runLog` to its last 10 entries, and deletes the three
terminal-only keys. -/

/-- JSON values. -/
inductive Js where
  | str : String → Js
  | num : Int → Js
  | arr : List Js → Js
  | obj : List (String × Js) → Js
deriving Repr

/-- Value at a key of a JSON object. -/
def objLookup (j : Js) (k : String) : Option Js :=
  match j with
  | .obj kvs => (kvs.find? (fun kv => kv.1 == k)).map (fun kv => kv.2)
  | _ => none

/-- Whether a JSON object has a key. -/
def jsHasKey (j : Js) (k : String) : Bool :=
  match j with
  | .obj kvs => kvs.any (fun kv => kv.1 == k)
  | _ => false

/-- Model of `delete obj[k]`. -/
def jsDeleteKey (j : Js) (k : String) : Js :=
  match j with
  | .obj kvs => .obj (kvs.filter (fun kv => kv.1 != k))
  | _ => j

/-- Model of `obj[k] = f(obj[k])` for a present key. -/
def jsMapKey (j : Js) (k : String) (f : Js → Js) : Js :=
  match j with
  | .obj kvs => .obj (kvs.map (fun kv => if kv.1 == k then (kv.1, f kv.2) else kv))
  | _ => j

/-- Length of a JSON array. -/
def jsArrLen : Js → Nat
  | .arr es => es.length
  | _ => 0

/-- JSON form of a run-log entry. -/
def runLogEntryToJson (e : RunLogEntry) : Js :=
  .obj [("iteration", .num e.iteration), ("agent", .str e.agent), ("summary", .str e.summary)]

/-- JSON form of an artifact. -/
def artifactToJson (a : Artifact) : Js :=
  .obj [("key", .str a.key), ("value", .str a.value)]

/-- JSON form of the internal state; `initialPlan` appears only when defined. -/
def internalStateToJson (s : InternalState) : Js :=
  .obj ([("goal", .str s.goal), ("steps", .arr (s.steps.map Js.str))] ++
    (match s.initialPlan with
     | none => []
     | some p => [("initialPlan", .arr (p.map Js.str))]) ++
    [("artifacts", .arr (s.artifacts.map artifactToJson)),
     ("notes", .str s.notes), ("progress", .str s.progress)])

/-- JSON form of the whole workflow state (`JSON.stringify(state)`);
`resultType` appears only when defined. -/
def workflowStateToJson (w : WorkflowState) : Js :=
  .obj ([("goal", .str w.goal), ("maxIterations", .num w.maxIterations),
    ("currentIteration", .num w.currentIteration), ("status", .str w.status),
    ("runLog", .arr (w.runLog.map runLogEntryToJson)),
    ("state", internalStateToJson w.state),
    ("finalResultMarkdown", .str w.finalResultMarkdown),
    ("finalResultSummary", .str w.finalResultSummary)] ++
    (match w.resultType with
     | none => []
     | some t => [("resultType", .str t)]))

/-- The prompt keeps at most this many run-log entries (line 17). -/
def MAX_LOG_ENTRIES : Nat := 10

/-- Model of `runLog.slice(-MAX_LOG_ENTRIES)` applied when the log is
longer than the bound (lines 20 to 22). -/
def pruneRunLog : Js → Js
  | .arr es =>
      if MAX_LOG_ENTRIES < es.length then .arr (es.drop (es.length - MAX_LOG_ENTRIES))
      else .arr es
  | j => j

/-- Embeds `prepareStateForPrompt` (lines 14 to 31): deep copy via a
JSON round trip, truncate the run log, delete the three terminal-only
keys. -/
def prepareStateForPrompt (w : WorkflowState) : Js :=
  jsDeleteKey (jsDeleteKey (jsDeleteKey
    (jsMapKey (workflowStateToJson w) "runLog" pruneRunLog)
    "finalResultMarkdown") "finalResultSummary") "resultType"

/-- The JSON state values embedded in the prompt text each adapter
sends for one turn. `getSystemPrompt` (line 133) embeds
`prepareStateForPrompt`; the google, ollama and OpenAI-compatible
adapters send that prompt unchanged. `_runClaudeWorkflow` (lines 292
to 305) keeps only the part of `getSystemPrompt` before the
`**Current State:**` heading — which precedes the embedded JSON, so
the system message embeds no state — and embeds
`JSON.stringify(currentState)`, the full input state, in its user
message (line 299). -/
def adapterPromptEmbeddedStates (k : AdapterKind) (w : WorkflowState) : List Js :=
  match k with
  | .claude => [workflowStateToJson w]
  | _ => [prepareStateForPrompt w]

/-- The JSON state values embedded in the prompt for a provider key,
through the provider switch. -/
def providerPromptEmbeddedStates (provider : String) (w : WorkflowState) : List Js :=
  match selectAdapter provider with
  | some k => adapterPromptEmbeddedStates k w
  | none => []

/-! ## Helper notions used by the claim statements -/

/-- Number of artifacts carrying a given key. -/
def countKey (arts : List Artifact) (k : String) : Nat :=
  (arts.filter (fun a => a.key == k)).length

/-- Whether a chunk shares at least one scoring keyword (a lowercase
query word of length above two) with the query. -/
def sharesKeyword (query chunk : String) : Bool :=
  (queryWordsOf query).any (fun w => (chunkTokens chunk).contains w)

/-- String inclusion: `part` occurs contiguously inside `whole`. -/
def strIncludes (part whole : String) : Prop :=
  ∃ pre post : String, whole = pre ++ (part ++ post)

/-- A small internal state for concrete instantiations. -/
def mkInternal (arts : List Artifact) : InternalState :=
  { goal := "Test goal", steps := [], initialPlan := none,
    artifacts := arts, notes := "n", progress := "p" }

/-- A small workflow state for concrete instantiations. -/
def mkState (arts : List Artifact) : WorkflowState :=
  { goal := "Test goal", maxIterations := 5, currentIteration := 0,
    status := "running", runLog := [], state := mkInternal arts,
    finalResultMarkdown := "", finalResultSummary := "", resultType := none }

/-- Reply state of claim C1's counterexample: the model returned both
a `rag_query` and a fabricated `rag_results` artifact. -/
def replyC1 : WorkflowState :=
  mkState [⟨"rag_query", "zzzz"⟩, ⟨"rag_results", "stale"⟩]

/-- Knowledge document of claim C1's counterexample; non-empty, and
no chunk shares a keyword with the query "zzzz". -/
def ragContentC1 : String := "alpha beta gamma delta words"

/-- Reply state used by the witnesses of claims C1 and C9: a single
`rag_query` artifact next to an ordinary artifact. -/
def replyW : WorkflowState :=
  mkState [⟨"report.md", "text"⟩, ⟨"rag_query", "security protocol"⟩]

/-- Knowledge document used by the witnesses of claims C1 and C9. -/
def ragContentW : String := "The main security protocol is to always use HTTPS."

/-- A workflow state with fifteen run-log entries and populated
terminal fields, for claim C3. -/
def wC3 : WorkflowState :=
  { goal := "Test goal", maxIterations := 30, currentIteration := 15,
    status := "running",
    runLog := (List.range 15).map (fun i => ⟨(i : Int), "Worker", "step"⟩),
    state := mkInternal [], finalResultMarkdown := "final", finalResultSummary := "sum",
    resultType := some "text" }

/-! # Theorems -/

/-! ### The two stable descending sorts agree

`sortByScoreDesc` is the source's insertion-based stable sort;
`stableSortByScoreDesc` is the specification's extensional
description. They are proved equal through the characterisation of a
stable sort by its score-indexed filters. -/

theorem insertDesc_filter_pos (x : Scored) (l : List Scored) (s : Nat) (hx : x.score = s) :
    (insertDesc x l).filter (fun it => it.score = s) =
      x :: l.filter (fun it => it.score = s) := by
  induction l with
  | nil => simp [insertDesc, hx]
  | cons y ys ih =>
      simp only [insertDesc]
      by_cases hyx : y.score > x.score
      · have hy : ¬ (y.score = s) := by omega
        rw [if_pos hyx]
        simp [List.filter_cons, hy, ih]
      · rw [if_neg hyx]
        simp [List.filter_cons, hx]

theorem insertDesc_filter_neg (x : Scored) (l : List Scored) (s : Nat) (hx : ¬ (x.score = s)) :
    (insertDesc x l).filter (fun it => it.score = s) =
      l.filter (fun it => it.score = s) := by
  induction l with
  | nil => simp [insertDesc, hx]
  | cons y ys ih =>
      simp only [insertDesc]
      by_cases hyx : y.score > x.score
      · rw [if_pos hyx]
        simp [List.filter_cons, ih]
      · rw [if_neg hyx]
        simp [List.filter_cons, hx]

theorem sortByScoreDesc_filter (l : List Scored) (s : Nat) :
    (sortByScoreDesc l).filter (fun it => it.score = s) =
      l.filter (fun it => it.score = s) := by
  induction l with
  | nil => rfl
  | cons x xs ih =>
      simp only [sortByScoreDesc]
      by_cases hx : x.score = s
      · rw [insertDesc_filter_pos _ _ _ hx, ih, List.filter_cons]
        simp [hx]
      · rw [insertDesc_filter_neg _ _ _ hx, ih, List.filter_cons]
        simp [hx]

theorem mem_insertDesc {a x : Scored} {l : List Scored} :
    a ∈ insertDesc x l ↔ a = x ∨ a ∈ l := by
  induction l with
  | nil => simp [insertDesc]
  | cons y ys ih =>
      simp only [insertDesc]
      by_cases hyx : y.score > x.score
      · rw [if_pos hyx]
        simp only [List.mem_cons, ih]
        tauto
      · rw [if_neg hyx]
        simp only [List.mem_cons]

theorem pairwise_insertDesc {x : Scored} {l : List Scored}
    (h : l.Pairwise (fun a b => b.score ≤ a.score)) :
    (insertDesc x l).Pairwise (fun a b => b.score ≤ a.score) := by
  induction l with
  | nil => simp [insertDesc]
  | cons y ys ih =>
      rw [List.pairwise_cons] at h
      obtain ⟨hy, hys⟩ := h
      simp only [insertDesc]
      by_cases hyx : y.score > x.score
      · rw [if_pos hyx, List.pairwise_cons]
        refine ⟨?_, ih hys⟩
        intro b hb
        rcases mem_insertDesc.mp hb with hb | hb
        · subst hb
          omega
        · exact hy b hb
      · rw [if_neg hyx, List.pairwise_cons]
        refine ⟨?_, by rw [List.pairwise_cons]; exact ⟨hy, hys⟩⟩
        intro b hb
        rcases List.mem_cons.mp hb with hb | hb
        · subst hb
          omega
        · have := hy b hb
          omega

theorem pairwise_sortByScoreDesc (l : List Scored) :
    (sortByScoreDesc l).Pairwise (fun a b => b.score ≤ a.score) := by
  induction l with
  | nil => simp [sortByScoreDesc]
  | cons x xs ih => exact pairwise_insertDesc ih

theorem mem_insertNatDesc {a x : Nat} {l : List Nat} :
    a ∈ insertNatDesc x l ↔ a = x ∨ a ∈ l := by
  induction l with
  | nil => simp [insertNatDesc]
  | cons y ys ih =>
      simp only [insertNatDesc]
      by_cases hyx : x > y
      · rw [if_pos hyx]
        simp only [List.mem_cons]
      · rw [if_neg hyx]
        simp only [List.mem_cons, ih]
        tauto

theorem mem_natSortDesc {a : Nat} {l : List Nat} : a ∈ natSortDesc l ↔ a ∈ l := by
  induction l with
  | nil => simp [natSortDesc]
  | cons x xs ih =>
      simp only [natSortDesc, mem_insertNatDesc, ih, List.mem_cons]

theorem pairwise_insertNatDesc {x : Nat} {l : List Nat}
    (h : l.Pairwise (fun a b => b ≤ a)) :
    (insertNatDesc x l).Pairwise (fun a b => b ≤ a) := by
  induction l with
  | nil => simp [insertNatDesc]
  | cons y ys ih =>
      rw [List.pairwise_cons] at h
      obtain ⟨hy, hys⟩ := h
      simp only [insertNatDesc]
      by_cases hyx : x > y
      · rw [if_pos hyx, List.pairwise_cons]
        refine ⟨?_, by rw [List.pairwise_cons]; exact ⟨hy, hys⟩⟩
        intro b hb
        rcases List.mem_cons.mp hb with hb | hb
        · omega
        · have := hy b hb
          omega
      · rw [if_neg hyx, List.pairwise_cons]
        refine ⟨?_, ih hys⟩
        intro b hb
        rcases mem_insertNatDesc.mp hb with hb | hb
        · omega
        · exact hy b hb

theorem pairwise_natSortDesc (l : List Nat) :
    (natSortDesc l).Pairwise (fun a b => b ≤ a) := by
  induction l with
  | nil => simp [natSortDesc]
  | cons x xs ih => exact pairwise_insertNatDesc ih

theorem nodup_insertNatDesc {x : Nat} {l : List Nat} (hx : x ∉ l) (h : l.Nodup) :
    (insertNatDesc x l).Nodup := by
  induction l with
  | nil => simp [insertNatDesc]
  | cons y ys ih =>
      rw [List.nodup_cons] at h
      obtain ⟨hy, hys⟩ := h
      have hxy : ¬ (x = y) := fun hc => hx (by simp [hc])
      have hxys : x ∉ ys := fun hc => hx (by simp [hc])
      simp only [insertNatDesc]
      by_cases hyx : x > y
      · rw [if_pos hyx, List.nodup_cons]
        refine ⟨?_, by rw [List.nodup_cons]; exact ⟨hy, hys⟩⟩
        simp only [List.mem_cons]
        push_neg
        exact ⟨hxy, hxys⟩
      · rw [if_neg hyx, List.nodup_cons]
        refine ⟨?_, ih hxys hys⟩
        rw [mem_insertNatDesc]
        push_neg
        exact ⟨fun hc => hxy hc.symm, hy⟩

theorem nodup_natSortDesc {l : List Nat} (h : l.Nodup) : (natSortDesc l).Nodup := by
  induction l with
  | nil => simp [natSortDesc]
  | cons x xs ih =>
      rw [List.nodup_cons] at h
      exact nodup_insertNatDesc (fun hc => h.1 (mem_natSortDesc.mp hc)) (ih h.2)

theorem mem_dedupFirstAux {α : Type} [DecidableEq α] {a : α} (seen l : List α) :
    a ∈ dedupFirstAux seen l ↔ a ∈ l ∧ a ∉ seen := by
  induction l generalizing seen with
  | nil => simp [dedupFirstAux]
  | cons x xs ih =>
      simp only [dedupFirstAux]
      by_cases hx : x ∈ seen
      · rw [if_pos hx, ih]
        simp only [List.mem_cons]
        constructor
        · rintro ⟨h1, h2⟩
          exact ⟨Or.inr h1, h2⟩
        · rintro ⟨h1 | h1, h2⟩
          · exact absurd (h1 ▸ hx) h2
          · exact ⟨h1, h2⟩
      · rw [if_neg hx]
        simp only [List.mem_cons, ih, List.mem_cons]
        constructor
        · rintro (h1 | ⟨h1, h2⟩)
          · exact ⟨Or.inl h1, h1 ▸ hx⟩
          · exact ⟨Or.inr h1, fun hc => h2 (Or.inr hc)⟩
        · rintro ⟨h1 | h1, h2⟩
          · exact Or.inl h1
          · by_cases hax : a = x
            · exact Or.inl hax
            · exact Or.inr ⟨h1, fun hc => (by rcases hc with hc | hc; exact hax hc; exact h2 hc)⟩

theorem nodup_dedupFirstAux {α : Type} [DecidableEq α] (seen l : List α) :
    (dedupFirstAux seen l).Nodup := by
  induction l generalizing seen with
  | nil => simp [dedupFirstAux]
  | cons x xs ih =>
      simp only [dedupFirstAux]
      by_cases hx : x ∈ seen
      · rw [if_pos hx]
        exact ih seen
      · rw [if_neg hx, List.nodup_cons]
        refine ⟨?_, ih (x :: seen)⟩
        rw [mem_dedupFirstAux]
        rintro ⟨_, h2⟩
        exact h2 (List.mem_cons_self x seen)

theorem mem_dedupFirst {α : Type} [DecidableEq α] {a : α} (l : List α) :
    a ∈ dedupFirst l ↔ a ∈ l := by
  rw [dedupFirst, mem_dedupFirstAux]
  simp

theorem nodup_dedupFirst {α : Type} [DecidableEq α] (l : List α) : (dedupFirst l).Nodup :=
  nodup_dedupFirstAux [] l

theorem score_eq_of_mem_filter {b : Scored} {l : List Scored} {s : Nat}
    (hb : b ∈ l.filter (fun it => it.score = s)) : b.score = s := by
  have := (List.mem_filter.mp hb).2
  simpa using this

theorem pairwise_filter_score (l : List Scored) (s : Nat) :
    (l.filter (fun it => it.score = s)).Pairwise (fun a b => b.score ≤ a.score) := by
  induction l with
  | nil => simp
  | cons x xs ih =>
      rw [List.filter_cons]
      by_cases hx : x.score = s
      · rw [if_pos (by simp [hx])]
        rw [List.pairwise_cons]
        refine ⟨?_, ih⟩
        intro b hb
        have := score_eq_of_mem_filter hb
        omega
      · rw [if_neg (by simp [hx])]
        exact ih

theorem mem_score_gather {b : Scored} {l : List Scored} {ss : List Nat}
    (hb : b ∈ gatherByScores l ss) : b.score ∈ ss := by
  induction ss with
  | nil => simp [gatherByScores] at hb
  | cons s ss' ih =>
      simp only [gatherByScores, List.mem_append] at hb
      rcases hb with hb | hb
      · exact List.mem_cons.mpr (Or.inl (score_eq_of_mem_filter hb))
      · exact List.mem_cons.mpr (Or.inr (ih hb))

theorem pairwise_gatherByScores (l : List Scored) {ss : List Nat}
    (h : ss.Pairwise (fun a b => b ≤ a)) :
    (gatherByScores l ss).Pairwise (fun a b => b.score ≤ a.score) := by
  induction ss with
  | nil => simp [gatherByScores]
  | cons s ss' ih =>
      rw [List.pairwise_cons] at h
      obtain ⟨hs, hss⟩ := h
      simp only [gatherByScores]
      rw [List.pairwise_append]
      refine ⟨pairwise_filter_score l s, ih hss, ?_⟩
      intro a ha b hb
      have ha' := score_eq_of_mem_filter ha
      have hb' := hs _ (mem_score_gather hb)
      omega

theorem gather_filter_not_mem {l : List Scored} {ss : List Nat} {t : Nat} (ht : t ∉ ss) :
    (gatherByScores l ss).filter (fun it => it.score = t) = [] := by
  rw [List.filter_eq_nil_iff]
  intro a ha
  have hsc := mem_score_gather ha
  simp only [decide_eq_true_eq]
  intro hc
  exact ht (hc ▸ hsc)

theorem gather_filter_mem {l : List Scored} {ss : List Nat} {t : Nat}
    (hnd : ss.Nodup) (ht : t ∈ ss) :
    (gatherByScores l ss).filter (fun it => it.score = t) =
      l.filter (fun it => it.score = t) := by
  induction ss with
  | nil => simp at ht
  | cons s ss' ih =>
      rw [List.nodup_cons] at hnd
      obtain ⟨hs, hnd'⟩ := hnd
      simp only [gatherByScores]
      rw [List.filter_append]
      rcases List.mem_cons.mp ht with hts | hts
      · subst hts
        rw [gather_filter_not_mem hs, List.append_nil, List.filter_filter]
        simp
      · have hst : ¬ (s = t) := fun hc => hs (hc ▸ hts)
        rw [ih hnd' hts, List.filter_filter]
        have : (l.filter fun a => decide (a.score = t) && decide (a.score = s)) = [] := by
          rw [List.filter_eq_nil_iff]
          intro a _
          simp only [Bool.and_eq_true, decide_eq_true_eq]
          rintro ⟨h1, h2⟩
          exact hst (h2 ▸ h1 ▸ rfl)
        rw [this, List.nil_append]

theorem stable_sort_unique (A : List Scored) :
    ∀ (B : List Scored), A.Pairwise (fun a b => b.score ≤ a.score) →
      B.Pairwise (fun a b => b.score ≤ a.score) →
      (∀ s, A.filter (fun it => it.score = s) = B.filter (fun it => it.score = s)) →
      A = B := by
  induction A with
  | nil =>
      intro B _ _ h
      cases B with
      | nil => rfl
      | cons b B' =>
          have hb := h b.score
          rw [List.filter_cons] at hb
          simp at hb
  | cons a A' ih =>
      intro B hA hB h
      cases B with
      | nil =>
          have ha := h a.score
          rw [List.filter_cons] at ha
          simp at ha
      | cons b B' =>
          have haB : a ∈ b :: B' := by
            have : a ∈ (b :: B').filter (fun it => it.score = a.score) := by
              rw [← h a.score, List.filter_cons]
              simp
            exact (List.mem_filter.mp this).1
          have hbA : b ∈ a :: A' := by
            have : b ∈ (a :: A').filter (fun it => it.score = b.score) := by
              rw [h b.score, List.filter_cons]
              simp
            exact (List.mem_filter.mp this).1
          have hsc : a.score = b.score := by
            rcases List.mem_cons.mp haB with hc | hc
            · rw [hc]
            · rcases List.mem_cons.mp hbA with hc' | hc'
              · rw [hc']
              · have h1 := (List.pairwise_cons.mp hB).1 a hc
                have h2 := (List.pairwise_cons.mp hA).1 b hc'
                omega
          have hhead := h a.score
          rw [List.filter_cons, List.filter_cons, if_pos (by simp),
            if_pos (by simp [hsc.symm])] at hhead
          obtain ⟨hab, htail⟩ := List.cons.inj hhead
          have htails : ∀ s, A'.filter (fun it => it.score = s) =
              B'.filter (fun it => it.score = s) := by
            intro s
            by_cases hsa : s = a.score
            · subst hsa
              exact htail
            · have hh := h s
              rw [List.filter_cons, List.filter_cons] at hh
              rw [if_neg (by simp; omega)] at hh
              rw [if_neg (by simp; omega)] at hh
              exact hh
          rw [hab, ih B' (List.pairwise_cons.mp hA).2 (List.pairwise_cons.mp hB).2 htails]

theorem sortByScoreDesc_eq_stable (l : List Scored) :
    sortByScoreDesc l = stableSortByScoreDesc l := by
  apply stable_sort_unique
  · exact pairwise_sortByScoreDesc l
  · exact pairwise_gatherByScores l (pairwise_natSortDesc _)
  · intro s
    rw [sortByScoreDesc_filter]
    unfold stableSortByScoreDesc
    by_cases hs : s ∈ natSortDesc (dedupFirst (l.map Scored.score))
    · rw [gather_filter_mem (nodup_natSortDesc (nodup_dedupFirst _)) hs]
    · rw [gather_filter_not_mem hs]
      rw [List.filter_eq_nil_iff]
      intro a ha
      simp only [decide_eq_true_eq]
      intro hc
      apply hs
      rw [mem_natSortDesc, mem_dedupFirst]
      exact List.mem_map.mpr ⟨a, ha, hc⟩

/-! ### Claim C2 — the RAG search against its reference algorithm -/

theorem foldl_count (p : String → Bool) (l : List String) (n : Nat) :
    l.foldl (fun sc w => if p w then sc + 1 else sc) n = n + (l.filter p).length := by
  induction l generalizing n with
  | nil => simp
  | cons x xs ih =>
      simp only [List.foldl_cons, List.filter_cons]
      by_cases hx : p x
      · rw [if_pos hx, if_pos hx, ih, List.length_cons]
        omega
      · rw [if_neg hx, if_neg hx, ih]

theorem scoreFold_eq_scoreCount (queryWords : List String) (chunk : String) :
    scoreFold queryWords chunk = scoreCount queryWords chunk := by
  rw [scoreFold, scoreCount, foldl_count]
  exact Nat.zero_add _

/-- C2, counterexample: the claim's reference algorithm, as stated,
keeps a chunk whose trimmed length is exactly 10 ("chunks shorter
than 10 characters after trimming are discarded"), but `_executeRAG`
keeps only chunks whose trimmed length exceeds 10. On the ten
character document "alphabet x" with query "alphabet" the code
returns the fixed no-relevant-information message while the stated
reference returns the chunk, so the two functions differ at this
input. -/
theorem ragSearch_differs_from_stated_reference :
    executeRAG "alphabet" "alphabet x" ≠ ragReferenceSearch "alphabet" "alphabet x" := by
  decide

/-- C2 (amended): the RAG search function behaves exactly as the
reference algorithm once its chunk filter is read as the code has it:
a chunk is discarded unless its trimmed length exceeds 10 characters
(so chunks of trimmed length 10 or less are dropped). With only that
change, `_executeRAG` equals the reference algorithm — empty-input
message, blank-line chunking, lowercase keyword set of words longer
than two characters, generic-query message, per-chunk scoring by
distinct query words present, discarding zero scores, stable
descending sort, top three joined after the fixed preamble, and the
no-relevant-information message when none qualify — on every query
and every content string. -/
theorem ragSearch_eq_amended_reference (query content : String) :
    executeRAG query content = ragReferenceSearchAmended query content := by
  have hfn : (fun chunk => Scored.mk chunk (scoreFold (queryWordsOf query) chunk)) =
      (fun chunk => Scored.mk chunk (scoreCount (queryWordsOf query) chunk)) :=
    funext fun c => by rw [scoreFold_eq_scoreCount]
  have hpred : (fun item : Scored => decide (0 < item.score)) =
      (fun item : Scored => decide (item.score ≠ 0)) :=
    funext fun it => decide_eq_decide.mpr (by omega)
  have hempty : ∀ (l : List String), (l.length == 0) = l.isEmpty := by
    intro l
    cases l <;> rfl
  unfold executeRAG ragReferenceSearchAmended ragChunks
  simp only [hfn, hpred, hempty, sortByScoreDesc_eq_stable]

/-! ### Shape of a successful RAG search result -/

theorem mem_sortByScoreDesc {a : Scored} {l : List Scored} :
    a ∈ sortByScoreDesc l ↔ a ∈ l := by
  induction l with
  | nil => simp [sortByScoreDesc]
  | cons x xs ih =>
      simp only [sortByScoreDesc, mem_insertDesc, ih, List.mem_cons]

theorem sharesKeyword_iff_pos (q c : String) :
    sharesKeyword q c = true ↔ 0 < scoreFold (queryWordsOf q) c := by
  rw [scoreFold_eq_scoreCount, sharesKeyword, scoreCount, List.any_eq_true]
  constructor
  · rintro ⟨w, hw, hcont⟩
    have hmem : w ∈ (queryWordsOf q).filter (fun w => (chunkTokens c).contains w) :=
      List.mem_filter.mpr ⟨hw, hcont⟩
    exact List.length_pos.mpr (List.ne_nil_of_mem hmem)
  · intro hlen
    obtain ⟨w, hw⟩ := List.exists_mem_of_ne_nil _ (List.length_pos.mp hlen)
    have hw' := List.mem_filter.mp hw
    exact ⟨w, hw'.1, hw'.2⟩

theorem joinSep_head (sep x : String) (xs : List String) :
    ∃ t : String, joinSep sep (x :: xs) = x ++ t := by
  cases xs with
  | nil => exact ⟨"", by simp [joinSep]⟩
  | cons y ys => exact ⟨sep ++ joinSep sep (y :: ys), by simp [joinSep, String.append_assoc]⟩

theorem executeRAG_hit (q c : String) (hc : ¬ (c = ""))
    (hit : ∃ ch, ch ∈ ragChunks c ∧ sharesKeyword q ch = true) :
    ∃ ch, ch ∈ ragChunks c ∧ sharesKeyword q ch = true ∧
      strIncludes ch (executeRAG q c) := by
  obtain ⟨ch₀, hch₀, hsh₀⟩ := hit
  have hqws : ∃ w, w ∈ queryWordsOf q := by
    rw [sharesKeyword, List.any_eq_true] at hsh₀
    obtain ⟨w, hw, _⟩ := hsh₀
    exact ⟨w, hw⟩
  have hsh₀ : sharesKeyword q ch₀ = true := hsh₀
  have hq : ¬ (q = "") := by
    rintro rfl
    obtain ⟨w, hw⟩ := hqws
    have hnil : queryWordsOf "" = [] := rfl
    rw [hnil] at hw
    exact absurd hw (List.not_mem_nil w)
  have hql : ¬ ((queryWordsOf q).length == 0) = true := by
    obtain ⟨w, hw⟩ := hqws
    have := List.length_pos.mpr (List.ne_nil_of_mem hw)
    simp only [beq_iff_eq]
    omega
  set positive := ((ragChunks c).map
      (fun chunk => Scored.mk chunk (scoreFold (queryWordsOf q) chunk))).filter
      (fun item => 0 < item.score) with hpos
  have hmem₀ : Scored.mk ch₀ (scoreFold (queryWordsOf q) ch₀) ∈ positive := by
    rw [hpos]
    refine List.mem_filter.mpr ⟨List.mem_map.mpr ⟨ch₀, hch₀, rfl⟩, ?_⟩
    simp only [decide_eq_true_eq]
    exact (sharesKeyword_iff_pos q ch₀).mp hsh₀
  obtain ⟨s₀, rest, hsort⟩ : ∃ s₀ rest, sortByScoreDesc positive = s₀ :: rest := by
    cases hs : sortByScoreDesc positive with
    | nil =>
        exfalso
        have hm := mem_sortByScoreDesc.mpr hmem₀
        rw [hs] at hm
        exact absurd hm (List.not_mem_nil _)
    | cons a b => exact ⟨a, b, rfl⟩
  have hs₀ : s₀ ∈ positive := mem_sortByScoreDesc.mp (hsort ▸ List.mem_cons_self s₀ rest)
  rw [hpos] at hs₀
  obtain ⟨hmap, hscore⟩ := List.mem_filter.mp hs₀
  obtain ⟨ch₁, hch₁, heq⟩ := List.mem_map.mp hmap
  have hsc₁ : 0 < scoreFold (queryWordsOf q) ch₁ := by
    have h1 : 0 < s₀.score := by simpa using hscore
    rw [← heq] at h1
    exact h1
  have hsh₁ : sharesKeyword q ch₁ = true := (sharesKeyword_iff_pos q ch₁).mpr hsc₁
  have hchunk₁ : s₀.chunk = ch₁ := by rw [← heq]
  have hform : executeRAG q c =
      ragPreamble ++ joinSep ragSeparator (((s₀ :: rest).take 3).map Scored.chunk) := by
    unfold executeRAG
    rw [if_neg (by simp [hq, hc]), if_neg hql, ← hpos]
    simp only [hsort]
    rw [if_neg (by simp [List.take_succ_cons])]
  rw [List.take_succ_cons, List.map_cons] at hform
  obtain ⟨t, ht⟩ := joinSep_head ragSeparator s₀.chunk ((rest.take 2).map Scored.chunk)
  refine ⟨ch₁, hch₁, hsh₁, ragPreamble, t, ?_⟩
  rw [hform, ht, hchunk₁]

/-! ### The RAG splice of the iteration controller -/

theorem postProcessRag_of_none (reply : WorkflowState) (rc : Option String)
    (hq : reply.state.artifacts.find? (fun x => x.key == "rag_query") = none) :
    postProcessRag reply rc = reply := by
  unfold postProcessRag
  rw [hq]

theorem postProcessRag_of_find (reply : WorkflowState) (rc : Option String) (a : Artifact)
    (hq : reply.state.artifacts.find? (fun x => x.key == "rag_query") = some a) :
    postProcessRag reply rc =
      if optTruthy rc then
        { reply with state := { reply.state with
            artifacts := reply.state.artifacts.filter (fun x => x.key != "rag_query") ++
              [⟨"rag_results", executeRAG a.value (rc.getD "")⟩],
            notes := ragDoneNotes a.value } }
      else
        { reply with state := { reply.state with
            artifacts := reply.state.artifacts.filter (fun x => x.key != "rag_query"),
            notes := ragNoDocMessage } } := by
  unfold postProcessRag
  rw [hq]

theorem runWorkflowIteration_ok (provider : String) (k : AdapterKind)
    (f : AdapterKind → Except String WorkflowState) (reply : WorkflowState)
    (rc : Option String)
    (hsel : selectAdapter provider = some k) (hf : f k = .ok reply) :
    runWorkflowIteration provider f rc = ([k], .ok (postProcessRag reply rc)) := by
  simp only [runWorkflowIteration, hsel, hf]

theorem countKey_append (l₁ l₂ : List Artifact) (k : String) :
    countKey (l₁ ++ l₂) k = countKey l₁ k + countKey l₂ k := by
  unfold countKey
  rw [List.filter_append, List.length_append]

theorem countKey_eq_zero_of_find_none {l : List Artifact} {k : String}
    (h : l.find? (fun x => x.key == k) = none) : countKey l k = 0 := by
  unfold countKey
  rw [List.length_eq_zero, List.filter_eq_nil_iff]
  intro a ha
  exact List.find?_eq_none.mp h a ha

theorem countKey_filter_out (l : List Artifact) (K : String) :
    countKey (l.filter (fun x => x.key != K)) K = 0 := by
  unfold countKey
  rw [List.filter_filter]
  have hfn : (fun a : Artifact => (a.key == K) && (a.key != K)) = fun _ => false := by
    funext a
    by_cases h : a.key = K <;> simp [h]
  rw [hfn, List.filter_false]
  rfl

theorem countKey_filter_other (l : List Artifact) {K K' : String} (h : ¬ (K' = K)) :
    countKey (l.filter (fun x => x.key != K)) K' = countKey l K' := by
  unfold countKey
  rw [List.filter_filter]
  have hfn : (fun a : Artifact => (a.key == K') && (a.key != K)) =
      fun a : Artifact => a.key == K' := by
    funext a
    by_cases ha : a.key = K'
    · simp [ha, h]
    · simp [ha]
  rw [hfn]

/-- C8: when the adapter reply contains a `rag_query` artifact and no
`ragContent` was supplied, the state returned by
`runWorkflowIteration` carries, verbatim, the fixed notes message
explaining that no knowledge document has been provided, its
artifacts are exactly the reply's artifacts with every `rag_query`
entry removed, and no `rag_results` artifact is added. -/
theorem rag_no_content_fallback (provider : String) (k : AdapterKind)
    (f : AdapterKind → Except String WorkflowState) (reply : WorkflowState) (a : Artifact)
    (hsel : selectAdapter provider = some k) (hf : f k = .ok reply)
    (ha : reply.state.artifacts.find? (fun x => x.key == "rag_query") = some a) :
    ∃ out, runWorkflowIteration provider f none = ([k], .ok out) ∧
      out.state.notes =
        "You requested a search, but no knowledge document has been provided by the user. Please proceed with the task using your existing knowledge." ∧
      out.state.artifacts = reply.state.artifacts.filter (fun x => x.key != "rag_query") ∧
      countKey out.state.artifacts "rag_results" =
        countKey reply.state.artifacts "rag_results" := by
  refine ⟨postProcessRag reply none, runWorkflowIteration_ok provider k f reply none hsel hf, ?_⟩
  rw [postProcessRag_of_find reply none a ha, if_neg (by simp [optTruthy])]
  refine ⟨rfl, rfl, ?_⟩
  exact countKey_filter_other _ (by decide)

/-- C9: the iteration controller's post-processing changes only the
artifact collection and the notes. When the adapter reply holds no
`rag_query` artifact the whole reply is returned unchanged; when it
holds one, every other field of the reply — `goal`, `maxIterations`,
`currentIteration`, `status`, `runLog`, `finalResultMarkdown`,
`finalResultSummary`, `resultType`, and the inner `goal`, `steps`,
`initialPlan`, `progress` — is returned exactly as parsed, and the
artifacts are the reply's artifacts with every `rag_query` entry
removed, in their original order, with a single `rag_results`
artifact appended at the end exactly when `ragContent` is truthy. -/
theorem rag_splice_frame (provider : String) (k : AdapterKind)
    (f : AdapterKind → Except String WorkflowState) (reply : WorkflowState)
    (rc : Option String)
    (hsel : selectAdapter provider = some k) (hf : f k = .ok reply) :
    (reply.state.artifacts.find? (fun x => x.key == "rag_query") = none →
      runWorkflowIteration provider f rc = ([k], .ok reply)) ∧
    (∀ a, reply.state.artifacts.find? (fun x => x.key == "rag_query") = some a →
      ∃ out, runWorkflowIteration provider f rc = ([k], .ok out) ∧
        out.goal = reply.goal ∧
        out.maxIterations = reply.maxIterations ∧
        out.currentIteration = reply.currentIteration ∧
        out.status = reply.status ∧
        out.runLog = reply.runLog ∧
        out.finalResultMarkdown = reply.finalResultMarkdown ∧
        out.finalResultSummary = reply.finalResultSummary ∧
        out.resultType = reply.resultType ∧
        out.state.goal = reply.state.goal ∧
        out.state.steps = reply.state.steps ∧
        out.state.initialPlan = reply.state.initialPlan ∧
        out.state.progress = reply.state.progress ∧
        out.state.artifacts =
          reply.state.artifacts.filter (fun x => x.key != "rag_query") ++
            (if optTruthy rc then [⟨"rag_results", executeRAG a.value (rc.getD "")⟩]
             else [])) := by
  constructor
  · intro hnone
    rw [runWorkflowIteration_ok provider k f reply rc hsel hf,
      postProcessRag_of_none reply rc hnone]
  · intro a ha
    refine ⟨postProcessRag reply rc,
      runWorkflowIteration_ok provider k f reply rc hsel hf, ?_⟩
    rw [postProcessRag_of_find reply rc a ha]
    by_cases ht : optTruthy rc
    · rw [if_pos ht, if_pos ht]
      simp
    · rw [if_neg ht, if_neg ht]
      simp

/-- C1, counterexample: a reply whose artifacts hold both a
`rag_query` and a pre-existing `rag_results` entry, with a non-empty
knowledge document supplied, refutes the claim as stated — after one
controller invocation the artifact collection holds two artifacts
keyed `rag_results` (the stale one and the appended one), not exactly
one; moreover the query "zzzz" shares no scoring keyword with any
chunk, so neither value includes a matching chunk. -/
theorem rag_pruning_counterexample :
    (∃ a, replyC1.state.artifacts.find? (fun x => x.key == "rag_query") = some a) ∧
    optTruthy (some ragContentC1) = true ∧
    (∃ out, runWorkflowIteration "google" (fun _ => Except.ok replyC1) (some ragContentC1) =
        ([AdapterKind.google], Except.ok out) ∧
      countKey out.state.artifacts "rag_results" = 2) := by
  refine ⟨⟨⟨"rag_query", "zzzz"⟩, by decide⟩, by decide,
    ⟨postProcessRag replyC1 (some ragContentC1), rfl, by decide⟩⟩

/-- C1 (amended): for every adapter reply containing a `rag_query`
artifact, one invocation of `runWorkflowIteration` returns a state
whose artifact collection contains no artifact keyed `rag_query`;
provided the reply contained no pre-existing `rag_results` artifact,
the returned collection contains exactly one artifact keyed
`rag_results` if and only if a truthy (non-empty) `ragContent` was
supplied; and when a non-empty `ragContent` was supplied and some
chunk of it shares a scoring keyword with the query, the returned
collection holds a `rag_results` artifact whose value includes such a
chunk of `ragContent`. -/
theorem rag_pruning_amended (provider : String) (k : AdapterKind)
    (f : AdapterKind → Except String WorkflowState) (reply : WorkflowState)
    (rc : Option String) (a : Artifact)
    (hsel : selectAdapter provider = some k) (hf : f k = .ok reply)
    (ha : reply.state.artifacts.find? (fun x => x.key == "rag_query") = some a) :
    ∃ out, runWorkflowIteration provider f rc = ([k], .ok out) ∧
      countKey out.state.artifacts "rag_query" = 0 ∧
      (reply.state.artifacts.find? (fun x => x.key == "rag_results") = none →
        (countKey out.state.artifacts "rag_results" = 1 ↔ optTruthy rc = true)) ∧
      (optTruthy rc = true →
        (∃ ch, ch ∈ ragChunks (rc.getD "") ∧ sharesKeyword a.value ch = true) →
        ∃ art, art ∈ out.state.artifacts ∧ art.key = "rag_results" ∧
          ∃ ch, ch ∈ ragChunks (rc.getD "") ∧ sharesKeyword a.value ch = true ∧
            strIncludes ch art.value) := by
  refine ⟨postProcessRag reply rc,
    runWorkflowIteration_ok provider k f reply rc hsel hf, ?_⟩
  rw [postProcessRag_of_find reply rc a ha]
  by_cases ht : optTruthy rc
  · rw [if_pos ht]
    refine ⟨?_, ?_, ?_⟩
    · simp only
      rw [countKey_append, countKey_filter_out]
      rfl
    · intro hnone
      simp only
      rw [countKey_append, countKey_filter_other _ (by decide),
        countKey_eq_zero_of_find_none hnone]
      simp only [ht, iff_true, Nat.zero_add]
      rfl
    · intro _ hhit
      have hc : ¬ (rc.getD "" = "") := by
        cases rc with
        | none => simp [optTruthy] at ht
        | some c =>
            simp only [Option.getD]
            simp only [optTruthy, Bool.not_eq_true'] at ht
            simpa using ht
      obtain ⟨ch, hch, hsh, hinc⟩ := executeRAG_hit a.value (rc.getD "") hc hhit
      refine ⟨⟨"rag_results", executeRAG a.value (rc.getD "")⟩, ?_, rfl, ch, hch, hsh, hinc⟩
      simp only
      exact List.mem_append_right _ (List.mem_singleton.mpr rfl)
  · rw [if_neg ht]
    refine ⟨?_, ?_, ?_⟩
    · simp only
      rw [countKey_filter_out]
    · intro hnone
      simp only
      rw [countKey_filter_other _ (by decide), countKey_eq_zero_of_find_none hnone]
      simp [ht]
    · intro htc
      exact absurd htc ht

/-- Witness for C1's amended theorem: a concrete reply holding a
`rag_query` for "security protocol" next to an ordinary artifact,
with a one-chunk knowledge document about the security protocol. -/
theorem rag_pruning_amended_witness :
    ∃ out, runWorkflowIteration "ollama" (fun _ => Except.ok replyW) (some ragContentW) =
        ([AdapterKind.ollama], .ok out) ∧
      countKey out.state.artifacts "rag_query" = 0 ∧
      (replyW.state.artifacts.find? (fun x => x.key == "rag_results") = none →
        (countKey out.state.artifacts "rag_results" = 1 ↔
          optTruthy (some ragContentW) = true)) ∧
      (optTruthy (some ragContentW) = true →
        (∃ ch, ch ∈ ragChunks ragContentW ∧
          sharesKeyword "security protocol" ch = true) →
        ∃ art, art ∈ out.state.artifacts ∧ art.key = "rag_results" ∧
          ∃ ch, ch ∈ ragChunks ragContentW ∧
            sharesKeyword "security protocol" ch = true ∧ strIncludes ch art.value) :=
  rag_pruning_amended "ollama" .ollama (fun _ => Except.ok replyW) replyW
    (some ragContentW) ⟨"rag_query", "security protocol"⟩ rfl rfl (by decide)

/-- Witness for C8 at the same concrete reply with `ragContent` omitted. -/
theorem rag_no_content_fallback_witness :
    ∃ out, runWorkflowIteration "google" (fun _ => Except.ok replyW) none =
        ([AdapterKind.google], .ok out) ∧
      out.state.notes =
        "You requested a search, but no knowledge document has been provided by the user. Please proceed with the task using your existing knowledge." ∧
      out.state.artifacts = replyW.state.artifacts.filter (fun x => x.key != "rag_query") ∧
      countKey out.state.artifacts "rag_results" =
        countKey replyW.state.artifacts "rag_results" :=
  rag_no_content_fallback "google" .google (fun _ => Except.ok replyW) replyW
    ⟨"rag_query", "security protocol"⟩ rfl rfl (by decide)

/-- Witness for C9: a reply with no `rag_query` artifact passes
through the claude-keyed controller invocation unchanged. -/
theorem rag_splice_frame_witness :
    runWorkflowIteration "claude" (fun _ => Except.ok (mkState [⟨"a.md", "x"⟩])) none =
      ([AdapterKind.claude], .ok (mkState [⟨"a.md", "x"⟩])) :=
  (rag_splice_frame "claude" .claude (fun _ => Except.ok (mkState [⟨"a.md", "x"⟩]))
    (mkState [⟨"a.md", "x"⟩]) none rfl rfl).1 (by decide)

/-! ### Claim C3 — run-log truncation and terminal-field pruning in the prompt -/

theorem prepareStateForPrompt_props (w : WorkflowState) (hlen : w.runLog.length = 15) :
    objLookup (prepareStateForPrompt w) "runLog" =
      some (.arr ((w.runLog.drop 5).map runLogEntryToJson)) ∧
    jsHasKey (prepareStateForPrompt w) "finalResultMarkdown" = false ∧
    jsHasKey (prepareStateForPrompt w) "finalResultSummary" = false ∧
    jsHasKey (prepareStateForPrompt w) "resultType" = false := by
  unfold prepareStateForPrompt workflowStateToJson jsMapKey jsDeleteKey pruneRunLog objLookup
    jsHasKey MAX_LOG_ENTRIES
  cases hrt : w.resultType with
  | none => simp [hlen, List.map_drop]
  | some t => simp [hlen, List.map_drop]

/-- C3, counterexample: for the claude provider the prompt does not
embed the pruned state — the user message embeds the full input state
(line 299 of src/server/src/services/workflow.ts), so with fifteen
run-log entries and populated terminal fields the embedded JSON holds
all fifteen entries and the `finalResultMarkdown` key. -/
theorem prompt_truncation_counterexample :
    providerPromptEmbeddedStates "claude" wC3 = [workflowStateToJson wC3] ∧
    jsHasKey (workflowStateToJson wC3) "finalResultMarkdown" = true ∧
    jsHasKey (workflowStateToJson wC3) "resultType" = true ∧
    jsArrLen ((objLookup (workflowStateToJson wC3) "runLog").getD (.obj [])) = 15 := by
  refine ⟨rfl, by decide, by decide, by decide⟩

/-- C3 (amended): for every provider other than claude — google,
ollama, openai, openrouter, groq, samba and cerberus — given an input
state with fifteen `runLog` entries, the JSON state embedded in the
prompt contains only the last ten entries and none of the keys
`finalResultMarkdown`, `finalResultSummary` or `resultType`,
regardless of their values in the input state; the claude adapter
instead embeds the full input state in its user message. -/
theorem prompt_truncation_amended (provider : String) (w : WorkflowState)
    (hp : provider ∈ knownProviderKeys) (hpc : ¬ (provider = "claude"))
    (hlen : w.runLog.length = 15) :
    ∀ j ∈ providerPromptEmbeddedStates provider w,
      objLookup j "runLog" = some (.arr ((w.runLog.drop 5).map runLogEntryToJson)) ∧
      jsHasKey j "finalResultMarkdown" = false ∧
      jsHasKey j "finalResultSummary" = false ∧
      jsHasKey j "resultType" = false := by
  intro j hj
  have hone : providerPromptEmbeddedStates provider w = [prepareStateForPrompt w] := by
    simp only [knownProviderKeys, List.mem_cons, List.not_mem_nil, or_false] at hp
    rcases hp with rfl | rfl | rfl | rfl | rfl | rfl | rfl | rfl
    · rfl
    · rfl
    · rfl
    · exact absurd rfl hpc
    · rfl
    · rfl
    · rfl
    · rfl
  rw [hone, List.mem_singleton] at hj
  subst hj
  exact prepareStateForPrompt_props w hlen

/-- Witness for C3's amended theorem at the google provider and the
fifteen-entry state, instantiated at the single embedded JSON value. -/
theorem prompt_truncation_amended_witness :
    objLookup (prepareStateForPrompt wC3) "runLog" =
      some (.arr ((wC3.runLog.drop 5).map runLogEntryToJson)) ∧
    jsHasKey (prepareStateForPrompt wC3) "finalResultMarkdown" = false ∧
    jsHasKey (prepareStateForPrompt wC3) "finalResultSummary" = false ∧
    jsHasKey (prepareStateForPrompt wC3) "resultType" = false :=
  prompt_truncation_amended "google" wC3 (by decide) (by decide) (by decide)
    (prepareStateForPrompt wC3) (List.mem_cons_self _ _)

/-! ### Claim C4 — rate limiter interval and spacing -/

theorem waitIfNeeded_spacing (rl : RateLimiter) (now lateness : Nat)
    (h : rl.lastCallTime ≤ now) :
    rl.lastCallTime + rl.minDelayMs ≤ (rl.waitIfNeeded now lateness).2 := by
  show rl.lastCallTime + rl.minDelayMs ≤ now + rl.waitTime now + lateness
  unfold RateLimiter.waitTime
  by_cases hw : now - rl.lastCallTime < rl.minDelayMs
  · rw [if_pos hw]
    omega
  · rw [if_neg hw]
    omega

set_option maxRecDepth 8000 in
/-- C4, counterexample: the source computes the minimum interval in
IEEE double-precision arithmetic, where
`(60000 / 5) * 1.1 = 13200.000000000002`, so for
`requestsPerMinute = 5` the constructed interval is
`Math.ceil(13200.000000000002) = 13201` — one more than the exact
`ceil(60000 / 5 * 1.1) = 13200` the claim's formula denotes. -/
theorem rate_limiter_interval_counterexample :
    (RateLimiter.create 5).minDelayMs = 13201 ∧
    (⌈(60000 : ℚ) / (5 : ℚ) * (11 / 10)⌉ : ℤ) = 13200 := by
  constructor
  · decide
  · have h : (60000 : ℚ) / (5 : ℚ) * (11 / 10) = ((13200 : ℤ) : ℚ) := by norm_num
    rw [h, Int.ceil_intCast]

set_option maxRecDepth 8000 in
/-- C4 (amended): the minimum interval is
`Math.ceil((60 * 1000) / requestsPerMinute * 1.1)` evaluated in IEEE
double-precision arithmetic, which can exceed the exact rational
ceiling by one millisecond; for the shipped `requestsPerMinute = 12`
it equals the exact `ceil(5000 * 1.1) = 5500`. Every call to
`waitIfNeeded` records the exit clock reading as the last-call time,
even when no wait was needed, and suspends until at least the minimum
interval has elapsed since the recorded last-call time; hence two
consecutive `waitIfNeeded` calls of the limiter built for 12 requests
per minute exit at least `ceil(5000 * 1.1) = 5500` milliseconds
apart. -/
theorem rate_limiter_spacing :
    (RateLimiter.create 12).minDelayMs = 5500 ∧
    ((5500 : ℤ) = ⌈(60000 : ℚ) / (12 : ℚ) * (11 / 10)⌉) ∧
    (∀ (rl : RateLimiter) (now lateness : Nat),
      ((rl.waitIfNeeded now lateness).1).lastCallTime = (rl.waitIfNeeded now lateness).2 ∧
      (rl.lastCallTime ≤ now →
        rl.lastCallTime + rl.minDelayMs ≤ (rl.waitIfNeeded now lateness).2)) ∧
    (∀ n₁ l₁ n₂ l₂ : Nat,
      ((RateLimiter.create 12).waitIfNeeded n₁ l₁).2 ≤ n₂ →
      ((RateLimiter.create 12).waitIfNeeded n₁ l₁).2 + 5500 ≤
        ((((RateLimiter.create 12).waitIfNeeded n₁ l₁).1).waitIfNeeded n₂ l₂).2) := by
  have hcreate : (RateLimiter.create 12).minDelayMs = 5500 := by decide
  refine ⟨hcreate, ?_, ?_, ?_⟩
  · have h : (60000 : ℚ) / (12 : ℚ) * (11 / 10) = ((5500 : ℤ) : ℚ) := by norm_num
    rw [h, Int.ceil_intCast]
  · intro rl now lateness
    exact ⟨rfl, waitIfNeeded_spacing rl now lateness⟩
  · intro n₁ l₁ n₂ l₂ h
    have hmin : (((RateLimiter.create 12).waitIfNeeded n₁ l₁).1).minDelayMs = 5500 := hcreate
    have hlast : (((RateLimiter.create 12).waitIfNeeded n₁ l₁).1).lastCallTime =
        ((RateLimiter.create 12).waitIfNeeded n₁ l₁).2 := rfl
    have hs := waitIfNeeded_spacing (((RateLimiter.create 12).waitIfNeeded n₁ l₁).1) n₂ l₂
      (by rw [hlast]; exact h)
    rw [hlast, hmin] at hs
    exact hs

set_option maxRecDepth 8000 in
/-- Witness for C4 at concrete clock readings: starting from a fresh
limiter, the first call exits at 5500 and the second call, entered
immediately, exits no earlier than 11000. -/
theorem rate_limiter_spacing_witness :
    ((RateLimiter.create 12).waitIfNeeded 0 0).2 ≤ 5500 ∧
    ((RateLimiter.create 12).waitIfNeeded 0 0).2 + 5500 ≤
      ((((RateLimiter.create 12).waitIfNeeded 0 0).1).waitIfNeeded 5500 0).2 :=
  ⟨by decide, rate_limiter_spacing.2.2.2 0 0 5500 0 (by decide)⟩

/-! ### Claim C5 — the loop driver overwrites the reported iteration counter -/

theorem driverRunAux_currentIteration (f : Nat → WorkflowState → WorkflowState) :
    ∀ (remaining i : Nat) (current : WorkflowState) (j : Nat) (s : WorkflowState),
      (driverRunAux f remaining i current).get? j = some s →
      s.currentIteration = ((i + j : Nat) : Int) := by
  intro remaining
  induction remaining with
  | zero =>
      intro i current j s h
      simp [driverRunAux] at h
  | succ m ih =>
      intro i current j s h
      rw [driverRunAux] at h
      by_cases ht : isTerminalStatus (driverStep (f i current) i)
      · rw [if_pos ht] at h
        cases j with
        | zero =>
            simp only [List.get?_cons_zero, Option.some.injEq] at h
            rw [← h]
            simp [driverStep]
        | succ j' => simp at h
      · rw [if_neg ht] at h
        cases j with
        | zero =>
            simp only [List.get?_cons_zero, Option.some.injEq] at h
            rw [← h]
            simp [driverStep]
        | succ j' =>
            rw [List.get?_cons_succ] at h
            have hi := ih (i + 1) (driverStep (f i current) i) j' s h
            rw [hi]
            congr 1
            omega

/-- C5: after every executed loop-driver turn, the held state's
`currentIteration` equals the driver's own counter for that turn —
the j-th state of the trace (turn j + 1) carries
`currentIteration = j + 1` — whatever `currentIteration` value the
provider's parsed reply reported, since the driver overwrites it. -/
theorem driver_overwrites_iteration (f : Nat → WorkflowState → WorkflowState)
    (init : WorkflowState) (maxIterations : Nat) (j : Nat) (s : WorkflowState)
    (h : (driverRun f init maxIterations).get? j = some s) :
    s.currentIteration = ((j + 1 : Nat) : Int) := by
  have hi := driverRunAux_currentIteration f maxIterations 1 init j s h
  rw [hi]
  congr 1
  omega

/-- Witness for C5: a reply oracle that always reports iteration 99
is overwritten; the second trace element carries iteration 2. -/
theorem driver_overwrites_iteration_witness :
    ∃ s, (driverRun (fun _ st => { st with currentIteration := 99 }) (mkState []) 3).get? 1 =
        some s ∧ s.currentIteration = ((1 + 1 : Nat) : Int) := by
  have h : (driverRun (fun _ st => { st with currentIteration := 99 }) (mkState []) 3).get? 1 =
      some { mkState [] with currentIteration := 2 } := by decide
  exact ⟨_, h, driver_overwrites_iteration _ _ _ 1 _ h⟩

/-! ### Claim C6 — unknown provider keys fail fast -/

theorem selectAdapter_eq_none (provider : String) (hp : provider ∉ knownProviderKeys) :
    selectAdapter provider = none := by
  simp only [knownProviderKeys, List.mem_cons, List.not_mem_nil, or_false, not_or] at hp
  obtain ⟨h1, h2, h3, h4, h5, h6, h7, h8⟩ := hp
  unfold selectAdapter
  rw [if_neg (by simp [h1]), if_neg (by simp [h2]), if_neg (by simp [h3]),
    if_neg (by simp [h4]), if_neg (by simp [h5]), if_neg (by simp [h6]),
    if_neg (by simp [h7]), if_neg (by simp [h8])]

/-- C6: for every settings value whose provider key is not one of the
known adapter keys (google, ollama, openai, claude, openrouter, groq,
samba, cerberus), `runWorkflowIteration` throws the
unsupported-provider error naming the key, invokes no provider
adapter, makes no outbound call (the invocation list is empty), and
the error propagates unhandled to the caller. -/
theorem unsupported_provider_fails_fast (provider : String)
    (f : AdapterKind → Except String WorkflowState) (rc : Option String)
    (hp : provider ∉ knownProviderKeys) :
    runWorkflowIteration provider f rc =
      ([], .error ("Unsupported provider: " ++ provider)) := by
  simp only [runWorkflowIteration, selectAdapter_eq_none provider hp]

/-- Witness for C6 at the unknown provider key "foo". -/
theorem unsupported_provider_fails_fast_witness :
    runWorkflowIteration "foo" (fun _ => .error "unused") none =
      ([], .error ("Unsupported provider: " ++ "foo")) :=
  unsupported_provider_fails_fast "foo" (fun _ => .error "unused") none (by decide)

/-! ### Claim C7 — the message-API connection probe -/

/-- C7: the connection test for the claude provider (with an API key
present, so the probe is actually sent) issues a single minimal
1-token POST completion request to the messages endpoint, throws
exactly when the response status is 401 or 403, and returns true for
every other status — including 400 and the other non-2xx statuses. -/
theorem claude_connection_test (env : Option String) (apiKey model baseURL : String)
    (hkey : ¬ (apiKey = "")) (response : FetchResponse) :
    (testProviderConnection "claude" env ⟨some apiKey, model, baseURL⟩ response).1 =
      [⟨baseURL ++ "/messages", "POST", some 1⟩] ∧
    ((response.status = 401 ∨ response.status = 403) →
      (testProviderConnection "claude" env ⟨some apiKey, model, baseURL⟩ response).2 =
        .error ("Connection failed: " ++ response.statusText)) ∧
    (¬ (response.status = 401 ∨ response.status = 403) →
      (testProviderConnection "claude" env ⟨some apiKey, model, baseURL⟩ response).2 =
        .ok true) := by
  have hred : testProviderConnection "claude" env ⟨some apiKey, model, baseURL⟩ response =
      (if (response.status == 401 || response.status == 403) = true then
        ([⟨baseURL ++ "/messages", "POST", some 1⟩],
          .error ("Connection failed: " ++ response.statusText))
      else ([⟨baseURL ++ "/messages", "POST", some 1⟩], .ok true)) := by
    unfold testProviderConnection
    rw [if_neg (by decide), if_neg (by decide), if_neg (by decide), if_pos (by decide),
      if_neg (by simp [optTruthy, hkey])]
  refine ⟨?_, ?_, ?_⟩
  · rw [hred]
    by_cases hc : (response.status == 401 || response.status == 403) = true
    · rw [if_pos hc]
    · rw [if_neg hc]
  · intro h
    rw [hred, if_pos (by rcases h with h | h <;> simp [h])]
  · intro h
    rw [hred, if_neg (by simp only [Bool.or_eq_true, beq_iff_eq]; tauto)]

/-- Witness for C7: with a key present, a 400 response from the probe
is accepted as a successful connection test. -/
theorem claude_connection_test_witness :
    (testProviderConnection "claude" none ⟨some "k", "m", "http://api"⟩
      ⟨400, "Bad Request", false⟩).1 = [⟨"http://api" ++ "/messages", "POST", some 1⟩] ∧
    (testProviderConnection "claude" none ⟨some "k", "m", "http://api"⟩
      ⟨400, "Bad Request", false⟩).2 = .ok true := by
  have h := claude_connection_test none "k" "m" "http://api" (by decide)
    ⟨400, "Bad Request", false⟩
  exact ⟨h.1, h.2.2 (by decide)⟩

/-! ### Claim C10 — the google branch of the connection test -/

/-- C10, counterexample: the claim says the google branch returns
true exactly when the process-environment key is set; but an
environment variable set to the empty string is set, and the code
(which tests JavaScript truthiness) throws on it. -/
theorem google_test_counterexample :
    testProviderConnection "google" (some "") ⟨some "key", "m", "http://x"⟩
        ⟨200, "OK", true⟩ =
      ([], .error "Google API Key not available.") := rfl

/-- C10 (amended): for provider google, `testProviderConnection`
performs no outbound call at all, returns true exactly when the
process-environment Google API key is set to a non-empty string and
throws otherwise, and ignores the per-provider settings record (its
apiKey, model and baseURL) and the network entirely. -/
theorem google_test_amended (env : Option String) (s : ProviderSettings) (r : FetchResponse) :
    (testProviderConnection "google" env s r).1 = [] ∧
    testProviderConnection "google" env s r =
      (if optTruthy env = true then ([], .ok true)
       else ([], .error "Google API Key not available.")) ∧
    (∀ (s' : ProviderSettings) (r' : FetchResponse),
      testProviderConnection "google" env s r = testProviderConnection "google" env s' r') := by
  have hred : ∀ (s₀ : ProviderSettings) (r₀ : FetchResponse),
      testProviderConnection "google" env s₀ r₀ =
        (if optTruthy env = true then ([], .ok true)
         else ([], .error "Google API Key not available.")) := by
    intro s₀ r₀
    unfold testProviderConnection
    rw [if_pos (by decide)]
  refine ⟨?_, hred s r, fun s' r' => by rw [hred, hred]⟩
  rw [hred]
  by_cases h : optTruthy env = true
  · rw [if_pos h]
  · rw [if_neg h]

end AWF
